import Mathlib

/-!
Verification of the core algorithms of the ve_data_science_tool repository,
as a shallow embedding in Lean 4.

The embedding covers:

* the polling state machine of `globus_transfer` (globus.py),
* the five-way inventory reconciliation of `get_sync_status` (globus.py),
* the recursive endpoint listing `recursive_ls` / `_recursive_ls_helper`
  (globus.py), modelled over a finite directory tree,
* the manifest validation `check_data_directory` and the manifest
  population `populate_manifest` (data.py).

External effects (the GLOBUS transfer service, the filesystem, YAML
serialisation) are modelled by explicit inputs: a trace of task
observations, a listing of directory entries, and a manifest load state.
-/

namespace VeDataScienceTool

/- ------------------------------------------------------------------ -/
/- Poll loop of globus_transfer (globus.py, lines 144-183)            -/
/- ------------------------------------------------------------------ -/

/-- One observation of a GLOBUS transfer task document: the fields that the
polling loop of `globus_transfer` inspects for control flow. -/
structure TaskInfo where
  status : String
  is_ok : Bool
  nice_status : String
  deriving DecidableEq, Repr

/-- The error condition of the poll loop, from
`(task_info["status"] == "ACTIVE") & (not task_info["is_ok"])`. -/
def isUnhealthyActive (ti : TaskInfo) : Bool :=
  ti.status == "ACTIVE" && !ti.is_ok

/-- The success condition of the poll loop, from
`task_info["status"] == "SUCCEEDED"`. -/
def isSucceededStatus (ti : TaskInfo) : Bool :=
  ti.status == "SUCCEEDED"

/-- An observation on which the poll loop exits: either the error branch
(cancel and return False) or the success branch fires.  These are the only
two ways out of the `while running` loop. -/
def isExitObservation (ti : TaskInfo) : Bool :=
  isUnhealthyActive ti || isSucceededStatus ti

/-- Result of running the poll loop for a bounded number of ticks:
the outcome (`none` when the tick budget ran out with the loop still
running), the number of `get_task` status polls performed, and the number
of `cancel_task` calls issued. -/
structure PollResult where
  outcome : Option Bool
  polls : Nat
  cancels : Nat
  deriving DecidableEq, Repr

/-- The `while running` loop of `globus_transfer`, run over a trace of task
observations (`trace i` is what `get_task` returns on the i-th poll) with
an explicit tick budget `fuel`.  Each tick polls once; the error branch
cancels once and returns failure, the success branch returns success,
otherwise the loop sleeps and re-ticks.  Logging (queued message, progress
message) has no control-flow effect and is omitted. -/
def pollLoop (trace : Nat → TaskInfo) : Nat → Nat → PollResult
  | 0, _ => ⟨none, 0, 0⟩
  | fuel + 1, i =>
    let ti := trace i
    if isUnhealthyActive ti then
      ⟨some false, 1, 1⟩
    else if isSucceededStatus ti then
      ⟨some true, 1, 0⟩
    else
      let r := pollLoop trace fuel (i + 1)
      ⟨r.outcome, r.polls + 1, r.cancels⟩

/-- Key lemma: if the first exit observation from tick `i` occurs after `N`
non-exit observations, and the budget exceeds `N`, the loop stops exactly
there, with `N + 1` polls, success iff that observation is SUCCEEDED, and
one cancellation iff it is the unhealthy-ACTIVE condition. -/
lemma pollLoop_first_exit (trace : Nat → TaskInfo) :
    ∀ (N fuel i : Nat),
      (∀ j, j < N → isExitObservation (trace (i + j)) = false) →
      isExitObservation (trace (i + N)) = true →
      N < fuel →
      pollLoop trace fuel i =
        ⟨some (isSucceededStatus (trace (i + N))), N + 1,
          if isUnhealthyActive (trace (i + N)) then 1 else 0⟩ := by
  intro N
  induction N with
  | zero =>
    intro fuel i _ hexit hfuel
    cases fuel with
    | zero => exact absurd hfuel (by omega)
    | succ fuel =>
      rw [Nat.add_zero] at hexit ⊢
      cases hbad : isUnhealthyActive (trace i) with
      | true =>
        have hsucc : isSucceededStatus (trace i) = false := by
          have hact : (trace i).status = "ACTIVE" := by
            have h2 := hbad
            simp only [isUnhealthyActive, Bool.and_eq_true, beq_iff_eq] at h2
            exact h2.1
          simp [isSucceededStatus, hact]
        simp [pollLoop, hbad, hsucc]
      | false =>
        have hsucc : isSucceededStatus (trace i) = true := by
          rw [isExitObservation, hbad, Bool.false_or] at hexit
          exact hexit
        simp [pollLoop, hbad, hsucc]
  | succ N ih =>
    intro fuel i hpre hexit hfuel
    cases fuel with
    | zero => exact absurd hfuel (by omega)
    | succ fuel =>
      have h0 : isExitObservation (trace (i + 0)) = false := hpre 0 (Nat.succ_pos N)
      rw [Nat.add_zero] at h0
      rw [isExitObservation, Bool.or_eq_false_iff] at h0
      have hrec := ih fuel (i + 1)
        (fun j hj => by
          have hp := hpre (j + 1) (Nat.succ_lt_succ hj)
          rwa [show i + (j + 1) = i + 1 + j by omega] at hp)
        (by rwa [show i + (N + 1) = i + 1 + N by omega] at hexit)
        (Nat.lt_of_succ_lt_succ hfuel)
      simp only [pollLoop, h0.1, h0.2, Bool.false_eq_true, if_false, hrec]
      rw [show i + 1 + N = i + (N + 1) by omega]

/-- A task trace that is constantly in the terminal FAILED state (with no
unhealthy-ACTIVE observation): the task has failed, `is_ok` is irrelevant
because the error branch requires status ACTIVE. -/
def constFailedTrace : Nat → TaskInfo := fun _ => ⟨"FAILED", true, "FAILED"⟩

/-- On the constantly-FAILED trace the poll loop consumes its whole budget
without reaching an outcome: neither exit branch ever fires. -/
lemma pollLoop_constFailed : ∀ (fuel i : Nat),
    pollLoop constFailedTrace fuel i = ⟨none, fuel, 0⟩ := by
  intro fuel
  induction fuel with
  | zero => intro i; rfl
  | succ fuel ih =>
    intro i
    simp only [pollLoop, ih (i + 1)]
    rfl

/-- A task trace that reports SUCCEEDED from the first poll onwards. -/
def succeededTrace : Nat → TaskInfo := fun _ => ⟨"SUCCEEDED", true, "OK"⟩

/-- A task trace that reports the unhealthy-ACTIVE error condition from the
first poll onwards. -/
def unhealthyTrace : Nat → TaskInfo := fun _ => ⟨"ACTIVE", false, "PERMISSION_DENIED"⟩

/-- C2 (amended): if the polled trajectory eventually presents an exit
observation (SUCCEEDED, or ACTIVE with a not-ok condition) at poll `N`,
having presented no exit observation before it, then the loop terminates
there for any sufficient tick budget: it polls exactly `N + 1` times,
returns success exactly when that observation is SUCCEEDED, and issues one
cancellation exactly when it is the unhealthy-ACTIVE condition.  (The
unamended claim fails: a trajectory that ends in the terminal FAILED state
without an unhealthy-ACTIVE observation is polled forever, see the
counterexample.) -/
theorem globus_transfer_poll_terminates_on_exit (trace : Nat → TaskInfo) (N fuel : Nat)
    (hpre : ∀ j, j < N → isExitObservation (trace j) = false)
    (hexit : isExitObservation (trace N) = true)
    (hfuel : N < fuel) :
    pollLoop trace fuel 0 =
      ⟨some (isSucceededStatus (trace N)), N + 1,
        if isUnhealthyActive (trace N) then 1 else 0⟩ := by
  have h := pollLoop_first_exit trace N fuel 0
    (fun j hj => by rw [Nat.zero_add]; exact hpre j hj)
    (by rwa [Nat.zero_add]) hfuel
  rwa [Nat.zero_add] at h

/-- Witness for C2 (amended): on the trace that reports SUCCEEDED at the
first poll, the loop returns success after exactly one poll and no
cancellation. -/
theorem globus_transfer_poll_terminates_on_exit_witness :
    pollLoop succeededTrace 1 0 = ⟨some true, 1, 0⟩ := by
  have h := globus_transfer_poll_terminates_on_exit succeededTrace 0 1
    (fun j hj => absurd hj (Nat.not_lt_zero j)) rfl Nat.one_pos
  simpa using h

/-- C2 (counterexample to the claim as stated): the constantly-FAILED
trajectory ends in a terminal state of the lifecycle, yet no tick budget
makes the poll loop of `globus_transfer` reach an outcome — the loop has
no exit branch for the FAILED status, so it polls forever. -/
theorem globus_transfer_failed_polls_forever :
    ¬ ∃ fuel : Nat, ((pollLoop constFailedTrace fuel 0).outcome).isSome = true := by
  rintro ⟨fuel, h⟩
  rw [pollLoop_constFailed] at h
  simp at h

/-- C3: if some poll observes the task ACTIVE with a not-ok condition, and
no earlier poll observed an exit condition, then `globus_transfer` returns
failure at that observation, having issued exactly one cancellation and
performing no further status polls (exactly `N + 1` polls in total). -/
theorem globus_transfer_unhealthy_cancels_once (trace : Nat → TaskInfo) (N fuel : Nat)
    (hpre : ∀ j, j < N → isExitObservation (trace j) = false)
    (hbad : isUnhealthyActive (trace N) = true)
    (hfuel : N < fuel) :
    pollLoop trace fuel 0 = ⟨some false, N + 1, 1⟩ := by
  have hsucc : isSucceededStatus (trace N) = false := by
    have h2 := hbad
    simp only [isUnhealthyActive, Bool.and_eq_true, beq_iff_eq] at h2
    simp [isSucceededStatus, h2.1]
  have h := pollLoop_first_exit trace N fuel 0
    (fun j hj => by rw [Nat.zero_add]; exact hpre j hj)
    (by rw [Nat.zero_add, isExitObservation, hbad]; rfl) hfuel
  rw [Nat.zero_add, hsucc, hbad] at h
  simpa using h

/-- Witness for C3: on the trace that reports the unhealthy-ACTIVE
condition at the first poll, the loop returns failure after exactly one
poll and one cancellation. -/
theorem globus_transfer_unhealthy_cancels_once_witness :
    pollLoop unhealthyTrace 1 0 = ⟨some false, 1, 1⟩ :=
  globus_transfer_unhealthy_cancels_once unhealthyTrace 0 1
    (fun j hj => absurd hj (Nat.not_lt_zero j)) rfl Nat.one_pos

/- ------------------------------------------------------------------ -/
/- Inventory reconciliation: get_sync_status (globus.py, 353-430)     -/
/- ------------------------------------------------------------------ -/

/-- One entry of a recursive endpoint listing as consumed by
`get_sync_status`: the name (relative path), the entry type ("file" or
"dir"), and the last-modified timestamp.  The timestamp, a
`datetime.fromisoformat` value in the source, is modelled as an integer;
only its equality and ordering are ever used. -/
structure ListingEntry where
  name : String
  ftype : String
  last_modified : Int
  deriving DecidableEq, Repr

/-- Assignment into a Python dict, modelled on an insertion-ordered
association list: assigning to an existing key overwrites its value in
place, otherwise the pair is appended. -/
def dictInsert (d : List (String × Int)) (k : String) (v : Int) : List (String × Int) :=
  if d.any (fun p => p.1 == k) then
    d.map (fun p => if p.1 == k then (k, v) else p)
  else d ++ [(k, v)]

/-- The dict comprehension of `get_sync_status` reducing a listing to
name ↦ last-modified, dropping entries whose type is not "file". -/
def buildInventory (listing : List ListingEntry) : List (String × Int) :=
  listing.foldl
    (fun d f => if f.ftype == "file" then dictInsert d f.name f.last_modified else d) []

/-- The keys of a dict, in insertion order. -/
def dictKeys (d : List (String × Int)) : List String := d.map (fun p => p.1)

/-- Python `k in d` membership test on a dict. -/
def dictMem (d : List (String × Int)) (k : String) : Bool :=
  d.any (fun p => p.1 == k)

/-- Python `d[k]` indexing, as an Option. -/
def dictGet (d : List (String × Int)) (k : String) : Option Int :=
  (d.find? (fun p => p.1 == k)).map (fun p => p.2)

/-- Python `sorted` on a list of strings: lexicographic order. -/
def sortedStr (l : List String) : List String := l.insertionSort (· ≤ ·)

/-- The five-way classification returned by `get_sync_status`. -/
structure SyncStatus where
  local_only : List String
  remote_only : List String
  up_to_date : List String
  remote_outdated : List String
  local_outdated : List String
  deriving DecidableEq, Repr

/-- The dictionary `both_endpoints_times` of `get_sync_status`: for each
path of `remote_names` also present in `local_names`, the triple of the
path, its `remote_names` value and its `local_names` value.  The Python
code iterates the `both_endpoints` set; this iterates `remote_names` in
insertion order, which is a permutation of that set — every output list of
`get_sync_status` is sorted, so the iteration order cannot affect it. -/
def bothTimes (remote_names local_names : List (String × Int)) :
    List (String × Int × Int) :=
  remote_names.filterMap
    (fun p => (dictGet local_names p.1).map (fun ld => (p.1, p.2, ld)))

/-- `get_sync_status` (globus.py): `remoteLs` is the listing fetched from
the remote collection, `localLs` the one fetched from the local
collection.  Faithful to the source, `remote_names` is built from the
local listing and `local_names` from the remote listing (globus.py lines
396-406), so the first timestamp of each `bothTimes` triple is the local
one and the second the remote one. -/
def get_sync_status (remoteLs localLs : List ListingEntry) : SyncStatus :=
  let remote_names := buildInventory localLs
  let local_names := buildInventory remoteLs
  let local_only := (dictKeys remote_names).filter (fun k => !dictMem local_names k)
  let remote_only := (dictKeys local_names).filter (fun k => !dictMem remote_names k)
  let both_times := bothTimes remote_names local_names
  let up_to_date := (both_times.filter (fun t => t.2.1 == t.2.2)).map (fun t => t.1)
  let remote_outdated :=
    (both_times.filter (fun t => decide (t.2.1 < t.2.2))).map (fun t => t.1)
  let local_outdated :=
    (both_times.filter (fun t => decide (t.2.2 < t.2.1))).map (fun t => t.1)
  ⟨sortedStr local_only, sortedStr remote_only, sortedStr up_to_date,
    sortedStr remote_outdated, sortedStr local_outdated⟩

/-- C1 (code bug): with the file "f" present on both endpoints, the remote
listing reporting timestamp 1 and the local listing reporting the strictly
later timestamp 2, the claim (and the docstring of `get_sync_status`)
requires "f" to be classified as remote_outdated; the code classifies it
as local_outdated, because `remote_names` is built from the local listing
and `local_names` from the remote listing while the comparisons read as if
the names matched the endpoints. -/
theorem get_sync_status_orientation_bug :
    (get_sync_status [⟨"f", "file", 1⟩] [⟨"f", "file", 2⟩]).remote_outdated = []
    ∧ (get_sync_status [⟨"f", "file", 1⟩] [⟨"f", "file", 2⟩]).local_outdated = ["f"]
    ∧ (get_sync_status [⟨"f", "file", 1⟩] [⟨"f", "file", 2⟩]).up_to_date = [] := by
  refine ⟨?_, ?_, ?_⟩ <;> rfl

lemma get_sync_status_local_only (remoteLs localLs : List ListingEntry) :
    (get_sync_status remoteLs localLs).local_only =
      sortedStr ((dictKeys (buildInventory localLs)).filter
        (fun k => !dictMem (buildInventory remoteLs) k)) := rfl

lemma get_sync_status_remote_only (remoteLs localLs : List ListingEntry) :
    (get_sync_status remoteLs localLs).remote_only =
      sortedStr ((dictKeys (buildInventory remoteLs)).filter
        (fun k => !dictMem (buildInventory localLs) k)) := rfl

lemma get_sync_status_up_to_date (remoteLs localLs : List ListingEntry) :
    (get_sync_status remoteLs localLs).up_to_date =
      sortedStr (((bothTimes (buildInventory localLs) (buildInventory remoteLs)).filter
        (fun t => t.2.1 == t.2.2)).map (fun t => t.1)) := rfl

lemma get_sync_status_remote_outdated (remoteLs localLs : List ListingEntry) :
    (get_sync_status remoteLs localLs).remote_outdated =
      sortedStr (((bothTimes (buildInventory localLs) (buildInventory remoteLs)).filter
        (fun t => decide (t.2.1 < t.2.2))).map (fun t => t.1)) := rfl

lemma get_sync_status_local_outdated (remoteLs localLs : List ListingEntry) :
    (get_sync_status remoteLs localLs).local_outdated =
      sortedStr (((bothTimes (buildInventory localLs) (buildInventory remoteLs)).filter
        (fun t => decide (t.2.2 < t.2.1))).map (fun t => t.1)) := rfl

/-- Membership in a dict is membership among its keys. -/
lemma dictMem_iff (d : List (String × Int)) (k : String) :
    dictMem d k = true ↔ k ∈ dictKeys d := by
  simp [dictMem, dictKeys, List.any_eq_true]

/-- Indexing a dict succeeds exactly on its keys. -/
lemma dictGet_isSome_iff (d : List (String × Int)) (k : String) :
    (dictGet d k).isSome = true ↔ k ∈ dictKeys d := by
  simp [dictGet, dictKeys, List.find?_isSome]

/-- A successful dict lookup returns a stored pair. -/
lemma dictGet_mem (d : List (String × Int)) (k : String) (v : Int)
    (h : dictGet d k = some v) : (k, v) ∈ d := by
  simp only [dictGet, Option.map_eq_some'] at h
  obtain ⟨p, hp, hv⟩ := h
  have hk := List.find?_some hp
  have hmem := List.mem_of_find?_eq_some hp
  rw [beq_iff_eq] at hk
  have : p = (k, v) := by
    obtain ⟨p1, p2⟩ := p
    simp only at hk hv
    rw [hk, hv]
  rwa [this] at hmem

/-- On a dict with distinct keys, lookup finds any stored pair. -/
lemma dictGet_eq_some_of_mem (d : List (String × Int)) (k : String) (v : Int)
    (hnd : (dictKeys d).Nodup) (hmem : (k, v) ∈ d) : dictGet d k = some v := by
  induction d with
  | nil => simp at hmem
  | cons p d ih =>
    rw [dictKeys, List.map_cons, List.nodup_cons] at hnd
    rcases List.mem_cons.mp hmem with heq | htail
    · rw [← heq]
      simp only [dictGet]
      rw [List.find?_cons_of_pos _ (by simp)]
      rfl
    · by_cases hk : p.1 = k
      · exfalso
        apply hnd.1
        rw [hk]
        exact List.mem_map.mpr ⟨(k, v), htail, rfl⟩
      · have hskip : dictGet (p :: d) k = dictGet d k := by
          simp only [dictGet]
          rw [List.find?_cons_of_neg _ (by simpa using hk)]
        rw [hskip]
        exact ih hnd.2 htail

/-- Keys after a dict assignment: unchanged when the key is present,
extended by the key otherwise. -/
lemma dictKeys_dictInsert (d : List (String × Int)) (k : String) (v : Int) :
    dictKeys (dictInsert d k v) =
      if dictMem d k then dictKeys d else dictKeys d ++ [k] := by
  by_cases h : dictMem d k = true
  · rw [if_pos h]
    unfold dictInsert
    rw [if_pos (by simpa [dictMem] using h)]
    simp only [dictKeys, List.map_map]
    apply List.map_congr_left
    intro p _
    by_cases hp : p.1 = k
    · simp [Function.comp, hp]
    · simp [Function.comp, hp]
  · rw [if_neg h]
    unfold dictInsert
    rw [if_neg (by simpa [dictMem] using h)]
    simp [dictKeys]

/-- The inventory dicts built by `get_sync_status` have distinct keys. -/
lemma dictKeys_buildInventory_nodup (listing : List ListingEntry) :
    (dictKeys (buildInventory listing)).Nodup := by
  have main : ∀ (l : List ListingEntry) (d : List (String × Int)),
      (dictKeys d).Nodup →
      (dictKeys (l.foldl (fun d f =>
        if f.ftype == "file" then dictInsert d f.name f.last_modified else d) d)).Nodup := by
    intro l
    induction l with
    | nil => intro d hd; simpa using hd
    | cons f l ih =>
      intro d hd
      rw [List.foldl_cons]
      apply ih
      by_cases hf : (f.ftype == "file") = true
      · rw [if_pos hf, dictKeys_dictInsert]
        by_cases hm : dictMem d f.name = true
        · rwa [if_pos hm]
        · rw [if_neg hm]
          rw [List.nodup_append]
          refine ⟨hd, List.nodup_singleton _, ?_⟩
          intro x hx hx1
          rw [List.mem_singleton] at hx1
          rw [hx1] at hx
          have hnotin : f.name ∉ dictKeys d :=
            fun hcon => hm ((dictMem_iff d f.name).mpr hcon)
          exact hnotin hx
      · rwa [if_neg hf]
  simpa [buildInventory] using main listing [] (by simp [dictKeys])

/-- Characterisation of the triples of `bothTimes` over a dict with
distinct keys. -/
lemma mem_bothTimes_iff (rn ln : List (String × Int)) (hnd : (dictKeys rn).Nodup)
    (s : String) (rd ld : Int) :
    (s, rd, ld) ∈ bothTimes rn ln ↔
      dictGet rn s = some rd ∧ dictGet ln s = some ld := by
  constructor
  · intro h
    rw [bothTimes, List.mem_filterMap] at h
    obtain ⟨p, hp, hmap⟩ := h
    rw [Option.map_eq_some'] at hmap
    obtain ⟨ld0, hget, heq⟩ := hmap
    rw [Prod.ext_iff, Prod.ext_iff] at heq
    obtain ⟨h1, h2, h3⟩ := heq
    simp only at h1 h2 h3
    have hps : p = (s, rd) := Prod.ext h1 h2
    refine ⟨dictGet_eq_some_of_mem rn s rd hnd (hps ▸ hp), ?_⟩
    rw [← h1, ← h3]
    exact hget
  · rintro ⟨h1, h2⟩
    rw [bothTimes, List.mem_filterMap]
    exact ⟨(s, rd), dictGet_mem rn s rd h1, by simp [h2]⟩

/-- The paths of `bothTimes` form a sublist of the keys of the first
dict. -/
lemma bothTimes_firsts_sublist (rn ln : List (String × Int)) :
    ((bothTimes rn ln).map (fun t => t.1)).Sublist (dictKeys rn) := by
  induction rn with
  | nil => simp [bothTimes, dictKeys]
  | cons p rn ih =>
    rw [bothTimes, List.filterMap_cons]
    cases hget : dictGet ln p.1 with
    | none =>
      simp only [hget, Option.map_none']
      exact List.Sublist.cons p.1 ih
    | some ld =>
      simp only [hget, Option.map_some']
      rw [List.map_cons]
      exact List.Sublist.cons₂ p.1 ih

/-- Sorting preserves membership and the program sorts every output list;
sortedness itself. -/
lemma sortedStr_sorted (l : List String) : (sortedStr l).Sorted (· ≤ ·) :=
  List.sorted_insertionSort _ l

/-- Sorting a duplicate-free list of paths keeps it duplicate-free. -/
lemma sortedStr_nodup (l : List String) (h : l.Nodup) : (sortedStr l).Nodup :=
  ((List.perm_insertionSort _ l).nodup_iff).mpr h

/-- Failing dict membership is absence from the keys. -/
lemma dictMem_false_iff (d : List (String × Int)) (k : String) :
    dictMem d k = false ↔ k ∉ dictKeys d := by
  rw [Bool.eq_false_iff]
  exact not_congr (dictMem_iff d k)

/-- Membership in the sorted only-on-one-side lists. -/
lemma mem_only_list (A B : List (String × Int)) (s : String) :
    s ∈ sortedStr ((dictKeys A).filter (fun k => !dictMem B k)) ↔
      s ∈ dictKeys A ∧ ¬ s ∈ dictKeys B := by
  rw [sortedStr, List.mem_insertionSort, List.mem_filter]
  simp only [Bool.not_eq_true']
  exact and_congr_right fun _ => dictMem_false_iff B s

/-- Membership in a sorted classified list of `get_sync_status`,
parametrised by the timestamp comparison. -/
lemma mem_classified (rn ln : List (String × Int)) (hnd : (dictKeys rn).Nodup)
    (P : Int → Int → Bool) (s : String) :
    s ∈ sortedStr (((bothTimes rn ln).filter (fun t => P t.2.1 t.2.2)).map (fun t => t.1)) ↔
      ∃ rd ld, dictGet rn s = some rd ∧ dictGet ln s = some ld ∧ P rd ld = true := by
  rw [sortedStr, List.mem_insertionSort, List.mem_map]
  constructor
  · rintro ⟨⟨t1, t2, t3⟩, ht, rfl⟩
    rw [List.mem_filter] at ht
    obtain ⟨hmem, hP⟩ := ht
    obtain ⟨hg1, hg2⟩ := (mem_bothTimes_iff rn ln hnd t1 t2 t3).mp hmem
    exact ⟨t2, t3, hg1, hg2, hP⟩
  · rintro ⟨rd, ld, h1, h2, h3⟩
    refine ⟨(s, rd, ld), List.mem_filter.mpr
      ⟨(mem_bothTimes_iff rn ln hnd s rd ld).mpr ⟨h1, h2⟩, h3⟩, rfl⟩

/-- How many of the five output lists of a SyncStatus contain a given
path. -/
def listsContaining (st : SyncStatus) (s : String) : Nat :=
  (if s ∈ st.local_only then 1 else 0) + (if s ∈ st.remote_only then 1 else 0) +
  (if s ∈ st.up_to_date then 1 else 0) + (if s ∈ st.remote_outdated then 1 else 0) +
  (if s ∈ st.local_outdated then 1 else 0)

/-- C4: the five lists returned by `get_sync_status` are pairwise disjoint
and their union is the union of the two inventories path sets — every path
present in either inventory is in exactly one of the five lists, every
path in neither is in none; every returned list is sorted
lexicographically and duplicate-free; and a path present on both
endpoints with unequal timestamps lands in exactly one of the two
outdated lists and in no other list (final conjunct). -/
theorem get_sync_status_partition (remoteLs localLs : List ListingEntry) :
    (∀ s : String,
      listsContaining (get_sync_status remoteLs localLs) s =
        (if s ∈ dictKeys (buildInventory remoteLs) ∨ s ∈ dictKeys (buildInventory localLs)
          then 1 else 0))
    ∧ (get_sync_status remoteLs localLs).local_only.Sorted (· ≤ ·)
    ∧ (get_sync_status remoteLs localLs).remote_only.Sorted (· ≤ ·)
    ∧ (get_sync_status remoteLs localLs).up_to_date.Sorted (· ≤ ·)
    ∧ (get_sync_status remoteLs localLs).remote_outdated.Sorted (· ≤ ·)
    ∧ (get_sync_status remoteLs localLs).local_outdated.Sorted (· ≤ ·)
    ∧ (get_sync_status remoteLs localLs).local_only.Nodup
    ∧ (get_sync_status remoteLs localLs).remote_only.Nodup
    ∧ (get_sync_status remoteLs localLs).up_to_date.Nodup
    ∧ (get_sync_status remoteLs localLs).remote_outdated.Nodup
    ∧ (get_sync_status remoteLs localLs).local_outdated.Nodup
    ∧ (∀ (s : String) (rd ld : Int),
        dictGet (buildInventory localLs) s = some rd →
        dictGet (buildInventory remoteLs) s = some ld → rd ≠ ld →
        ((s ∈ (get_sync_status remoteLs localLs).remote_outdated ∧
            ¬ s ∈ (get_sync_status remoteLs localLs).local_outdated) ∨
          (s ∈ (get_sync_status remoteLs localLs).local_outdated ∧
            ¬ s ∈ (get_sync_status remoteLs localLs).remote_outdated))
        ∧ ¬ s ∈ (get_sync_status remoteLs localLs).local_only
        ∧ ¬ s ∈ (get_sync_status remoteLs localLs).remote_only
        ∧ ¬ s ∈ (get_sync_status remoteLs localLs).up_to_date) := by
  have hndr : (dictKeys (buildInventory localLs)).Nodup :=
    dictKeys_buildInventory_nodup localLs
  have hndl : (dictKeys (buildInventory remoteLs)).Nodup :=
    dictKeys_buildInventory_nodup remoteLs
  have hclassnd : ∀ P : (String × Int × Int) → Bool,
      (((bothTimes (buildInventory localLs) (buildInventory remoteLs)).filter P).map
        (fun t => t.1)).Nodup := by
    intro P
    have h1 : (((bothTimes (buildInventory localLs) (buildInventory remoteLs)).filter P).map
        (fun t => t.1)).Sublist
        ((bothTimes (buildInventory localLs) (buildInventory remoteLs)).map (fun t => t.1)) :=
      List.Sublist.map _ (List.filter_sublist _)
    exact (h1.trans (bothTimes_firsts_sublist _ _)).nodup hndr
  have hLO : ∀ s, s ∈ (get_sync_status remoteLs localLs).local_only ↔
      s ∈ dictKeys (buildInventory localLs) ∧ ¬ s ∈ dictKeys (buildInventory remoteLs) := by
    intro s; rw [get_sync_status_local_only]; exact mem_only_list _ _ s
  have hRO : ∀ s, s ∈ (get_sync_status remoteLs localLs).remote_only ↔
      s ∈ dictKeys (buildInventory remoteLs) ∧ ¬ s ∈ dictKeys (buildInventory localLs) := by
    intro s; rw [get_sync_status_remote_only]; exact mem_only_list _ _ s
  have hUP : ∀ s, s ∈ (get_sync_status remoteLs localLs).up_to_date ↔
      ∃ rd ld, dictGet (buildInventory localLs) s = some rd ∧
        dictGet (buildInventory remoteLs) s = some ld ∧ (rd == ld) = true := by
    intro s; rw [get_sync_status_up_to_date]
    exact mem_classified _ _ hndr (fun a b => a == b) s
  have hROD : ∀ s, s ∈ (get_sync_status remoteLs localLs).remote_outdated ↔
      ∃ rd ld, dictGet (buildInventory localLs) s = some rd ∧
        dictGet (buildInventory remoteLs) s = some ld ∧ decide (rd < ld) = true := by
    intro s; rw [get_sync_status_remote_outdated]
    exact mem_classified _ _ hndr (fun a b => decide (a < b)) s
  have hLOD : ∀ s, s ∈ (get_sync_status remoteLs localLs).local_outdated ↔
      ∃ rd ld, dictGet (buildInventory localLs) s = some rd ∧
        dictGet (buildInventory remoteLs) s = some ld ∧ decide (ld < rd) = true := by
    intro s; rw [get_sync_status_local_outdated]
    exact mem_classified _ _ hndr (fun a b => decide (b < a)) s
  refine ⟨?_, ?_, ?_, ?_, ?_, ?_, ?_, ?_, ?_, ?_, ?_, ?_⟩
  · intro s
    by_cases hl : s ∈ dictKeys (buildInventory localLs) <;>
      by_cases hr : s ∈ dictKeys (buildInventory remoteLs)
    · -- present on both endpoints
      obtain ⟨rd0, hget1⟩ : ∃ v, dictGet (buildInventory localLs) s = some v :=
        Option.isSome_iff_exists.mp ((dictGet_isSome_iff _ s).mpr hl)
      obtain ⟨ld0, hget2⟩ : ∃ v, dictGet (buildInventory remoteLs) s = some v :=
        Option.isSome_iff_exists.mp ((dictGet_isSome_iff _ s).mpr hr)
      have hred : ∀ P : Int → Int → Bool,
          ((∃ rd ld, dictGet (buildInventory localLs) s = some rd ∧
            dictGet (buildInventory remoteLs) s = some ld ∧ P rd ld = true) ↔
          P rd0 ld0 = true) := by
        intro P
        constructor
        · rintro ⟨rd, ld, h1, h2, h3⟩
          rw [hget1] at h1
          rw [hget2] at h2
          injection h1 with h1
          injection h2 with h2
          rw [h1, h2]
          exact h3
        · intro h
          exact ⟨rd0, ld0, hget1, hget2, h⟩
      rw [listsContaining]
      rw [if_neg (fun hcon => ((hLO s).mp hcon).2 hr),
        if_neg (fun hcon => ((hRO s).mp hcon).2 hl)]
      rcases lt_trichotomy rd0 ld0 with hc | hc | hc
      · have hup : ¬ s ∈ (get_sync_status remoteLs localLs).up_to_date := by
          rw [hUP s, hred]
          simp only [beq_iff_eq]
          exact ne_of_lt hc
        have hrod : s ∈ (get_sync_status remoteLs localLs).remote_outdated := by
          rw [hROD s, hred]
          simp [hc]
        have hlod : ¬ s ∈ (get_sync_status remoteLs localLs).local_outdated := by
          rw [hLOD s, hred]
          simp only [decide_eq_true_eq]
          exact lt_asymm hc
        rw [if_neg hup, if_pos hrod, if_neg hlod, if_pos (Or.inl hr)]
      · have hup : s ∈ (get_sync_status remoteLs localLs).up_to_date := by
          rw [hUP s, hred]
          simp [hc]
        have hrod : ¬ s ∈ (get_sync_status remoteLs localLs).remote_outdated := by
          rw [hROD s, hred]
          simp [hc]
        have hlod : ¬ s ∈ (get_sync_status remoteLs localLs).local_outdated := by
          rw [hLOD s, hred]
          simp [hc]
        rw [if_pos hup, if_neg hrod, if_neg hlod, if_pos (Or.inl hr)]
      · have hup : ¬ s ∈ (get_sync_status remoteLs localLs).up_to_date := by
          rw [hUP s, hred]
          simp only [beq_iff_eq]
          exact ne_of_gt hc
        have hrod : ¬ s ∈ (get_sync_status remoteLs localLs).remote_outdated := by
          rw [hROD s, hred]
          simp only [decide_eq_true_eq]
          exact lt_asymm hc
        have hlod : s ∈ (get_sync_status remoteLs localLs).local_outdated := by
          rw [hLOD s, hred]
          simp [hc]
        rw [if_neg hup, if_neg hrod, if_pos hlod, if_pos (Or.inl hr)]
    · -- present only in the local listing
      have hnone : dictGet (buildInventory remoteLs) s = none := by
        rw [← Option.not_isSome_iff_eq_none, dictGet_isSome_iff]
        exact hr
      have hnomem : ∀ P : Int → Int → Bool,
          ¬ (∃ rd ld, dictGet (buildInventory localLs) s = some rd ∧
            dictGet (buildInventory remoteLs) s = some ld ∧ P rd ld = true) := by
        rintro P ⟨rd, ld, _, h2, _⟩
        rw [hnone] at h2
        exact Option.noConfusion h2
      rw [listsContaining]
      rw [if_pos ((hLO s).mpr ⟨hl, hr⟩),
        if_neg (fun hcon => ((hRO s).mp hcon).2 hl),
        if_neg (fun hcon => hnomem _ ((hUP s).mp hcon)),
        if_neg (fun hcon => hnomem _ ((hROD s).mp hcon)),
        if_neg (fun hcon => hnomem _ ((hLOD s).mp hcon)),
        if_pos (Or.inr hl)]
    · -- present only in the remote listing
      have hnone : dictGet (buildInventory localLs) s = none := by
        rw [← Option.not_isSome_iff_eq_none, dictGet_isSome_iff]
        exact hl
      have hnomem : ∀ P : Int → Int → Bool,
          ¬ (∃ rd ld, dictGet (buildInventory localLs) s = some rd ∧
            dictGet (buildInventory remoteLs) s = some ld ∧ P rd ld = true) := by
        rintro P ⟨rd, ld, h1, _, _⟩
        rw [hnone] at h1
        exact Option.noConfusion h1
      rw [listsContaining]
      rw [if_neg (fun hcon => hl ((hLO s).mp hcon).1),
        if_pos ((hRO s).mpr ⟨hr, hl⟩),
        if_neg (fun hcon => hnomem _ ((hUP s).mp hcon)),
        if_neg (fun hcon => hnomem _ ((hROD s).mp hcon)),
        if_neg (fun hcon => hnomem _ ((hLOD s).mp hcon)),
        if_pos (Or.inl hr)]
    · -- present in neither inventory
      have hnone : dictGet (buildInventory localLs) s = none := by
        rw [← Option.not_isSome_iff_eq_none, dictGet_isSome_iff]
        exact hl
      have hnomem : ∀ P : Int → Int → Bool,
          ¬ (∃ rd ld, dictGet (buildInventory localLs) s = some rd ∧
            dictGet (buildInventory remoteLs) s = some ld ∧ P rd ld = true) := by
        rintro P ⟨rd, ld, h1, _, _⟩
        rw [hnone] at h1
        exact Option.noConfusion h1
      rw [listsContaining]
      rw [if_neg (fun hcon => hl ((hLO s).mp hcon).1),
        if_neg (fun hcon => hr ((hRO s).mp hcon).1),
        if_neg (fun hcon => hnomem _ ((hUP s).mp hcon)),
        if_neg (fun hcon => hnomem _ ((hROD s).mp hcon)),
        if_neg (fun hcon => hnomem _ ((hLOD s).mp hcon)),
        if_neg (fun hcon => hcon.elim hr hl)]
  · rw [get_sync_status_local_only]; exact sortedStr_sorted _
  · rw [get_sync_status_remote_only]; exact sortedStr_sorted _
  · rw [get_sync_status_up_to_date]; exact sortedStr_sorted _
  · rw [get_sync_status_remote_outdated]; exact sortedStr_sorted _
  · rw [get_sync_status_local_outdated]; exact sortedStr_sorted _
  · rw [get_sync_status_local_only]
    exact sortedStr_nodup _ (hndr.filter _)
  · rw [get_sync_status_remote_only]
    exact sortedStr_nodup _ (hndl.filter _)
  · rw [get_sync_status_up_to_date]
    exact sortedStr_nodup _ (hclassnd _)
  · rw [get_sync_status_remote_outdated]
    exact sortedStr_nodup _ (hclassnd _)
  · rw [get_sync_status_local_outdated]
    exact sortedStr_nodup _ (hclassnd _)
  · intro s rd ld hget1 hget2 hne
    have hl : s ∈ dictKeys (buildInventory localLs) :=
      (dictGet_isSome_iff _ s).mp (by rw [hget1]; rfl)
    have hr : s ∈ dictKeys (buildInventory remoteLs) :=
      (dictGet_isSome_iff _ s).mp (by rw [hget2]; rfl)
    have hred : ∀ P : Int → Int → Bool,
        ((∃ rd0 ld0, dictGet (buildInventory localLs) s = some rd0 ∧
          dictGet (buildInventory remoteLs) s = some ld0 ∧ P rd0 ld0 = true) ↔
        P rd ld = true) := by
      intro P
      constructor
      · rintro ⟨rd0, ld0, h1, h2, h3⟩
        rw [hget1] at h1
        rw [hget2] at h2
        injection h1 with h1
        injection h2 with h2
        rw [h1, h2]
        exact h3
      · intro h
        exact ⟨rd, ld, hget1, hget2, h⟩
    refine ⟨?_, fun hcon => ((hLO s).mp hcon).2 hr,
      fun hcon => ((hRO s).mp hcon).2 hl, ?_⟩
    · rcases lt_trichotomy rd ld with hc | hc | hc
      · left
        constructor
        · rw [hROD s, hred]
          simp [hc]
        · rw [hLOD s, hred]
          simp only [decide_eq_true_eq]
          exact lt_asymm hc
      · exact absurd hc hne
      · right
        constructor
        · rw [hLOD s, hred]
          simp [hc]
        · rw [hROD s, hred]
          simp only [decide_eq_true_eq]
          exact lt_asymm hc
    · rw [hUP s, hred]
      simp only [beq_iff_eq]
      exact hne

/-- Witness for C4: the file "g", present on both endpoints with unequal
timestamps (remote 5, local 7), lands in exactly one of the two outdated
lists and in none of the other three. -/
theorem get_sync_status_partition_witness :
    (("g" ∈ (get_sync_status [⟨"g", "file", 5⟩] [⟨"g", "file", 7⟩]).remote_outdated ∧
        ¬ "g" ∈ (get_sync_status [⟨"g", "file", 5⟩] [⟨"g", "file", 7⟩]).local_outdated) ∨
      ("g" ∈ (get_sync_status [⟨"g", "file", 5⟩] [⟨"g", "file", 7⟩]).local_outdated ∧
        ¬ "g" ∈ (get_sync_status [⟨"g", "file", 5⟩] [⟨"g", "file", 7⟩]).remote_outdated))
    ∧ ¬ "g" ∈ (get_sync_status [⟨"g", "file", 5⟩] [⟨"g", "file", 7⟩]).local_only
    ∧ ¬ "g" ∈ (get_sync_status [⟨"g", "file", 5⟩] [⟨"g", "file", 7⟩]).remote_only
    ∧ ¬ "g" ∈ (get_sync_status [⟨"g", "file", 5⟩] [⟨"g", "file", 7⟩]).up_to_date :=
  (get_sync_status_partition [⟨"g", "file", 5⟩] [⟨"g", "file", 7⟩]).2.2.2.2.2.2.2.2.2.2.2
    "g" 7 5 rfl rfl (by decide)

/- ------------------------------------------------------------------ -/
/- Manifest model, validation and population (data.py)                -/
/- ------------------------------------------------------------------ -/

/-- A file entry of a data directory manifest (`ManifestFile` in
data.py): a name plus the optional provenance fields url, script and the
md5 checksum. -/
structure ManifestFile where
  name : String
  url : Option String := none
  script : Option String := none
  md5 : Option String := none
  deriving DecidableEq, Repr

/-- A data directory manifest (`Manifest` in data.py): the relative
directory path and the ordered file entries. -/
structure Manifest where
  directory : String
  files : List ManifestFile
  deriving DecidableEq, Repr

/-- One raw entry of a directory listing: its name and whether it is a
directory.  Hidden entries are those whose name starts with a dot. -/
structure DirEntry where
  name : String
  isDir : Bool
  deriving DecidableEq, Repr

/-- Python `name.startswith(".")`: the first character is a dot. -/
def startsWithDot (s : String) : Bool :=
  s.data.head? == some '.'

/-- The actual file set of `check_data_directory` (data.py lines
101-106): non-hidden plain files other than MANIFEST.yaml, as a set
(the Python set comprehension is modelled by dedup of names). -/
def actualFiles (entries : List DirEntry) : List String :=
  ((entries.filter fun f =>
    !startsWithDot f.name && !f.isDir && f.name != "MANIFEST.yaml").map
      (fun f => f.name)).eraseDups

/-- The candidate file list of `populate_manifest` (data.py lines
258-262): non-directory, non-hidden entries other than MANIFEST.yaml, in
discovery order. -/
def candidateFiles (entries : List DirEntry) : List String :=
  (entries.filter fun f =>
    !(f.isDir || startsWithDot f.name || f.name == "MANIFEST.yaml")).map
      (fun f => f.name)

/-- The observable state of a directory's MANIFEST.yaml file: absent, a
file whose contents are not valid YAML, a YAML file that fails the
Manifest schema, or a file that loads as a Manifest (`load_manifest`,
data.py lines 39-62). -/
inductive ManifestLoad where
  | absent
  | yamlError
  | validationError
  | loaded (m : Manifest)
  deriving DecidableEq, Repr

/-- Python `manifest_file.exists()`. -/
def ManifestLoad.present : ManifestLoad → Bool
  | .absent => false
  | _ => true

/-- The distinct error lines `check_data_directory` can log, one
constructor per log line. -/
inductive CheckError where
  | notInRepo
  | dirNotFound
  | notADirectory
  | manifestNotFound
  | manifestInEmptyDir
  | cannotParse
  | structureIncorrect
  | directoryMismatch (dir : String)
  | unknownInManifest (names : List String)
  | missingFromManifest (names : List String)
  | incompleteProvenance (name : String)
  deriving DecidableEq, Repr

/-- The outcome of `check_data_directory`: the returned boolean and the
error lines logged. -/
structure CheckResult where
  valid : Bool
  errors : List CheckError
  deriving DecidableEq, Repr

/-- The name set of a manifest, `{entry.name for entry in
manifest.files}` (a Python set, modelled by dedup). -/
def manifestNames (m : Manifest) : List String :=
  (m.files.map (fun f => f.name)).eraseDups

/-- Python set equality `manifest_files == actual_files`, by mutual
containment. -/
def setEqStr (a b : List String) : Bool :=
  a.all (fun x => decide (x ∈ b)) && b.all (fun x => decide (x ∈ a))

/-- The set difference `manifest_files.difference(actual_files)`. -/
def onlyInManifest (m : Manifest) (actual : List String) : List String :=
  (manifestNames m).filter (fun n => !decide (n ∈ actual))

/-- The set difference `actual_files.difference(manifest_files)`. -/
def onlyInDirectory (m : Manifest) (actual : List String) : List String :=
  actual.filter (fun n => !decide (n ∈ manifestNames m))

/-- The url-xor-script completeness violation,
`not ((file.url is None) ^ (file.script is None))`. -/
def provenanceViolation (f : ManifestFile) : Bool :=
  !((f.url.isNone).xor (f.script.isNone))

/-- Steps 8-11 of the validation (data.py lines 136-185): the
directory-identity check, the two file-set difference checks and the
per-entry url-xor-script check all run, accumulating error lines; the
result is valid only when none fired. -/
def checkManifestContents (directory_relative : String) (m : Manifest)
    (actual : List String) : CheckResult :=
  let mismatch := directory_relative != m.directory
  let setsDiffer := !setEqStr (manifestNames m) actual
  let violations := m.files.filter provenanceViolation
  ⟨!(mismatch || setsDiffer || !violations.isEmpty),
    (if mismatch then [CheckError.directoryMismatch m.directory] else [])
    ++ (if setsDiffer then
          (if !(onlyInManifest m actual).isEmpty
            then [CheckError.unknownInManifest (onlyInManifest m actual)] else [])
          ++ (if !(onlyInDirectory m actual).isEmpty
            then [CheckError.missingFromManifest (onlyInDirectory m actual)] else [])
        else [])
    ++ violations.map (fun f => CheckError.incompleteProvenance f.name)⟩

/-- The observable state of a directory passed to
`check_data_directory`: whether the containment check succeeds, whether
the path exists and is a directory, the raw directory entries, the
relative path under the repository root, and the MANIFEST.yaml state. -/
structure CheckDirState where
  inRepo : Bool
  dirExists : Bool
  isDir : Bool
  entries : List DirEntry
  directory_relative : String
  manifest : ManifestLoad
  deriving DecidableEq, Repr

/-- `check_data_directory` (data.py lines 65-185). -/
def check_data_directory (d : CheckDirState) : CheckResult :=
  if !d.inRepo then ⟨false, [.notInRepo]⟩
  else if !d.dirExists then ⟨false, [.dirNotFound]⟩
  else if !d.isDir then ⟨false, [.notADirectory]⟩
  else
    let actual := actualFiles d.entries
    if !actual.isEmpty && !d.manifest.present then ⟨false, [.manifestNotFound]⟩
    else if actual.isEmpty && d.manifest.present then ⟨false, [.manifestInEmptyDir]⟩
    else if actual.isEmpty && !d.manifest.present then ⟨true, []⟩
    else
      match d.manifest with
      | .absent => ⟨false, [.manifestNotFound]⟩
      | .yamlError => ⟨false, [.cannotParse]⟩
      | .validationError => ⟨false, [.structureIncorrect]⟩
      | .loaded m => checkManifestContents d.directory_relative m actual

/-- The status part of the `populate_manifest` return value. -/
inductive PopStatus where
  | empty
  | created
  | updated
  deriving DecidableEq, Repr

/-- The exceptions `populate_manifest` can raise: ValueError for a
directory outside the repository root, YAMLError and ValidationError
propagated from `load_manifest`. -/
inductive PopError where
  | notInRepo
  | yamlError
  | validationError
  deriving DecidableEq, Repr

/-- The observable state of a directory passed to `populate_manifest`. -/
structure PopDirState where
  inRepo : Bool
  entries : List DirEntry
  directory_relative : String
  manifest : ManifestLoad
  deriving DecidableEq, Repr

/-- The effect of one `populate_manifest` call: the returned status and
added-file list (or the raised error), together with the sequence of
writes performed on MANIFEST.yaml, in order. -/
structure PopOutcome where
  result : Except PopError (PopStatus × List String)
  writes : List Manifest
  deriving Repr

/-- `populate_manifest` (data.py lines 217-296).  The containment check
runs first; with no manifest present, an empty candidate list returns
`empty` without writing and a non-empty one writes a fresh manifest whose
entries carry only names; with a manifest present, it is loaded (raising
on parse or schema failure before any write) and entries are appended for
candidate files whose name is not yet present, in discovery order. -/
def populate_manifest (d : PopDirState) : PopOutcome :=
  if !d.inRepo then ⟨.error .notInRepo, []⟩
  else
    let files := candidateFiles d.entries
    match d.manifest with
    | .absent =>
      if files.isEmpty then ⟨.ok (.empty, files), []⟩
      else
        ⟨.ok (.created, files),
          [Manifest.mk d.directory_relative
            (files.map (fun n => ⟨n, none, none, none⟩))]⟩
    | .yamlError => ⟨.error .yamlError, []⟩
    | .validationError => ⟨.error .validationError, []⟩
    | .loaded m =>
      let existing_files := m.files.map (fun f => f.name)
      let new_files := files.filter (fun f => !decide (f ∈ existing_files))
      ⟨.ok (.updated, new_files),
        [Manifest.mk m.directory
          (m.files ++ new_files.map (fun n => ⟨n, none, none, none⟩))]⟩

/-- The directory state after a `populate_manifest` call: the entries are
untouched and the manifest file holds the last write, if any.  Reading
the written file back is the identity on the Manifest value: the YAML
dump and `load_manifest` round-trip is the external serialisation
machinery, required by the manifest file interface contract to reproduce
the dumped structure. -/
def afterPopulate (d : PopDirState) : PopDirState :=
  match (populate_manifest d).writes.getLast? with
  | some m => { d with manifest := .loaded m }
  | none => d

/-- C5: for a directory that passes the containment and existence checks,
validation of the manifest-presence invariant behaves as specified: empty
actual file set and no manifest passes with no errors; non-empty actual
file set and no manifest fails with only the manifest-not-found error;
empty actual file set with a manifest file present fails with only the
manifest-in-empty-directory error. -/
theorem check_data_directory_manifest_presence (d : CheckDirState)
    (h1 : d.inRepo = true) (h2 : d.dirExists = true) (h3 : d.isDir = true) :
    (actualFiles d.entries = [] → d.manifest = .absent →
      check_data_directory d = ⟨true, []⟩)
    ∧ (actualFiles d.entries ≠ [] → d.manifest = .absent →
      check_data_directory d = ⟨false, [.manifestNotFound]⟩)
    ∧ (actualFiles d.entries = [] → d.manifest.present = true →
      check_data_directory d = ⟨false, [.manifestInEmptyDir]⟩) := by
  refine ⟨?_, ?_, ?_⟩ <;> intro ha hm
  · simp [check_data_directory, h1, h2, h3, ha, hm, ManifestLoad.present]
  · have hae : (actualFiles d.entries).isEmpty = false := by
      cases hev : actualFiles d.entries with
      | nil => exact absurd hev ha
      | cons x xs => rfl
    simp [check_data_directory, h1, h2, h3, hae, hm, ManifestLoad.present]
  · simp [check_data_directory, h1, h2, h3, ha, hm]

/-- Witness for C5: a directory containing one plain file and no
MANIFEST.yaml fails validation with exactly the manifest-not-found
error. -/
theorem check_data_directory_manifest_presence_witness :
    check_data_directory ⟨true, true, true, [⟨"a.csv", false⟩], "data/x", .absent⟩ =
      ⟨false, [.manifestNotFound]⟩ := by
  have h := (check_data_directory_manifest_presence
    ⟨true, true, true, [⟨"a.csv", false⟩], "data/x", .absent⟩ rfl rfl rfl).2.1
  exact h
    (by
      rw [show actualFiles [(⟨"a.csv", false⟩ : DirEntry)] = ["a.csv"] from rfl]
      exact List.cons_ne_nil _ _)
    rfl

/-- If both set differences are empty, the Python set equality holds. -/
lemma setEqStr_of_empty_diffs (m : Manifest) (actual : List String)
    (h1 : onlyInManifest m actual = []) (h2 : onlyInDirectory m actual = []) :
    setEqStr (manifestNames m) actual = true := by
  rw [setEqStr, Bool.and_eq_true, List.all_eq_true, List.all_eq_true]
  constructor
  · intro x hx
    rw [decide_eq_true_eq]
    by_contra hc
    have hmem : x ∈ onlyInManifest m actual := by
      rw [onlyInManifest, List.mem_filter]
      exact ⟨hx, by simp [hc]⟩
    rw [h1] at hmem
    exact absurd hmem (List.not_mem_nil x)
  · intro x hx
    rw [decide_eq_true_eq]
    by_contra hc
    have hmem : x ∈ onlyInDirectory m actual := by
      rw [onlyInDirectory, List.mem_filter]
      exact ⟨hx, by simp [hc]⟩
    rw [h2] at hmem
    exact absurd hmem (List.not_mem_nil x)

/-- A non-empty manifest-only difference falsifies the set equality. -/
lemma setEqStr_false_of_onlyInManifest (m : Manifest) (actual : List String)
    (h : onlyInManifest m actual ≠ []) :
    setEqStr (manifestNames m) actual = false := by
  obtain ⟨x, hx⟩ : ∃ x, x ∈ onlyInManifest m actual := by
    cases hev : onlyInManifest m actual with
    | nil => exact absurd hev h
    | cons a l => exact ⟨a, hev ▸ List.mem_cons_self a l⟩
  rw [onlyInManifest, List.mem_filter] at hx
  obtain ⟨hx1, hx2⟩ := hx
  rw [Bool.not_eq_true', decide_eq_false_iff_not] at hx2
  cases hset : setEqStr (manifestNames m) actual with
  | false => rfl
  | true =>
    exfalso
    simp only [setEqStr, Bool.and_eq_true, List.all_eq_true] at hset
    have := hset.1 x hx1
    rw [decide_eq_true_eq] at this
    exact hx2 this

/-- A non-empty directory-only difference falsifies the set equality. -/
lemma setEqStr_false_of_onlyInDirectory (m : Manifest) (actual : List String)
    (h : onlyInDirectory m actual ≠ []) :
    setEqStr (manifestNames m) actual = false := by
  obtain ⟨x, hx⟩ : ∃ x, x ∈ onlyInDirectory m actual := by
    cases hev : onlyInDirectory m actual with
    | nil => exact absurd hev h
    | cons a l => exact ⟨a, hev ▸ List.mem_cons_self a l⟩
  rw [onlyInDirectory, List.mem_filter] at hx
  obtain ⟨hx1, hx2⟩ := hx
  rw [Bool.not_eq_true', decide_eq_false_iff_not] at hx2
  cases hset : setEqStr (manifestNames m) actual with
  | false => rfl
  | true =>
    exfalso
    simp only [setEqStr, Bool.and_eq_true, List.all_eq_true] at hset
    have := hset.2 x hx1
    rw [decide_eq_true_eq] at this
    exact hx2 this

/-- With a loaded manifest and a non-empty actual file set, validation
runs the full content check. -/
lemma check_data_directory_loaded (d : CheckDirState) (m : Manifest)
    (h1 : d.inRepo = true) (h2 : d.dirExists = true) (h3 : d.isDir = true)
    (h4 : d.manifest = .loaded m) (h5 : actualFiles d.entries ≠ []) :
    check_data_directory d =
      checkManifestContents d.directory_relative m (actualFiles d.entries) := by
  have hae : (actualFiles d.entries).isEmpty = false := by
    cases hev : actualFiles d.entries with
    | nil => exact absurd hev h5
    | cons x xs => rfl
  simp [check_data_directory, h1, h2, h3, h4, hae, ManifestLoad.present]

lemma checkManifestContents_valid (rel : String) (m : Manifest) (actual : List String) :
    (checkManifestContents rel m actual).valid =
      !((rel != m.directory) || !setEqStr (manifestNames m) actual
        || !(m.files.filter provenanceViolation).isEmpty) := rfl

lemma checkManifestContents_errors (rel : String) (m : Manifest) (actual : List String) :
    (checkManifestContents rel m actual).errors =
      (if rel != m.directory then [CheckError.directoryMismatch m.directory] else [])
      ++ (if !setEqStr (manifestNames m) actual then
            (if !(onlyInManifest m actual).isEmpty
              then [CheckError.unknownInManifest (onlyInManifest m actual)] else [])
            ++ (if !(onlyInDirectory m actual).isEmpty
              then [CheckError.missingFromManifest (onlyInDirectory m actual)] else [])
          else [])
      ++ (m.files.filter provenanceViolation).map
          (fun f => CheckError.incompleteProvenance f.name) := rfl

/-- Which error lines the content check can contain: exactly one line per
failed check, with the provenance check contributing one line per
violating entry. -/
lemma mem_checkManifestContents_errors (rel : String) (m : Manifest) (actual : List String)
    (x : CheckError) :
    x ∈ (checkManifestContents rel m actual).errors ↔
      (rel ≠ m.directory ∧ x = .directoryMismatch m.directory)
      ∨ (onlyInManifest m actual ≠ [] ∧ x = .unknownInManifest (onlyInManifest m actual))
      ∨ (onlyInDirectory m actual ≠ [] ∧ x = .missingFromManifest (onlyInDirectory m actual))
      ∨ (∃ f, f ∈ m.files ∧ provenanceViolation f = true ∧
          x = .incompleteProvenance f.name) := by
  rw [checkManifestContents_errors]
  simp only [List.mem_append]
  constructor
  · rintro ((h1 | h2) | h3)
    · by_cases hb : rel = m.directory
      · rw [if_neg (by simp [hb])] at h1
        exact absurd h1 (List.not_mem_nil x)
      · rw [if_pos (by simp [hb])] at h1
        rw [List.mem_singleton] at h1
        exact Or.inl ⟨hb, h1⟩
    · by_cases hsd : setEqStr (manifestNames m) actual = true
      · rw [if_neg (by simp [hsd])] at h2
        exact absurd h2 (List.not_mem_nil x)
      · rw [Bool.not_eq_true] at hsd
        rw [if_pos (by simp [hsd])] at h2
        rw [List.mem_append] at h2
        rcases h2 with h2 | h2
        · by_cases hoim : onlyInManifest m actual = []
          · rw [if_neg (by simp [hoim])] at h2
            exact absurd h2 (List.not_mem_nil x)
          · rw [if_pos (by simp [hoim])] at h2
            rw [List.mem_singleton] at h2
            exact Or.inr (Or.inl ⟨hoim, h2⟩)
        · by_cases hoid : onlyInDirectory m actual = []
          · rw [if_neg (by simp [hoid])] at h2
            exact absurd h2 (List.not_mem_nil x)
          · rw [if_pos (by simp [hoid])] at h2
            rw [List.mem_singleton] at h2
            exact Or.inr (Or.inr (Or.inl ⟨hoid, h2⟩))
    · rw [List.mem_map] at h3
      obtain ⟨f, hf, hx⟩ := h3
      rw [List.mem_filter] at hf
      exact Or.inr (Or.inr (Or.inr ⟨f, hf.1, hf.2, hx.symm⟩))
  · rintro (⟨hb, rfl⟩ | ⟨hoim, rfl⟩ | ⟨hoid, rfl⟩ | ⟨f, hf, hviol, rfl⟩)
    · refine Or.inl (Or.inl ?_)
      rw [if_pos (by simp [hb])]
      exact List.mem_singleton_self _
    · refine Or.inl (Or.inr ?_)
      have hsd : setEqStr (manifestNames m) actual = false :=
        setEqStr_false_of_onlyInManifest m actual hoim
      rw [if_pos (by simp [hsd])]
      rw [List.mem_append]
      left
      rw [if_pos (by simp [hoim])]
      exact List.mem_singleton_self _
    · refine Or.inl (Or.inr ?_)
      have hsd : setEqStr (manifestNames m) actual = false :=
        setEqStr_false_of_onlyInDirectory m actual hoid
      rw [if_pos (by simp [hsd])]
      rw [List.mem_append]
      right
      rw [if_pos (by simp [hoid])]
      exact List.mem_singleton_self _
    · refine Or.inr ?_
      rw [List.mem_map]
      exact ⟨f, List.mem_filter.mpr ⟨hf, hviol⟩, rfl⟩

/-- The content check is valid exactly when it logged no error line. -/
lemma checkManifestContents_valid_iff (rel : String) (m : Manifest) (actual : List String) :
    (checkManifestContents rel m actual).valid = true ↔
      (checkManifestContents rel m actual).errors = [] := by
  rw [checkManifestContents_valid, checkManifestContents_errors]
  constructor
  · intro h
    rw [Bool.not_eq_true'] at h
    simp only [Bool.or_eq_false_iff] at h
    obtain ⟨⟨ha, hb⟩, hc⟩ := h
    have hviol : m.files.filter provenanceViolation = [] := by
      cases hev : m.files.filter provenanceViolation with
      | nil => rfl
      | cons y ys =>
        rw [hev] at hc
        simp at hc
    simp [ha, hb, hviol]
  · intro h
    simp only [List.append_eq_nil] at h
    obtain ⟨⟨he1, he2⟩, he3⟩ := h
    have ha : (rel != m.directory) = false := by
      by_cases hb : (rel != m.directory) = true
      · rw [if_pos hb] at he1
        exact absurd he1 (List.cons_ne_nil _ _)
      · rwa [Bool.not_eq_true] at hb
    have hviol : m.files.filter provenanceViolation = [] := by
      rwa [List.map_eq_nil_iff] at he3
    have hsd : setEqStr (manifestNames m) actual = true := by
      by_cases hset : setEqStr (manifestNames m) actual = true
      · exact hset
      · exfalso
        rw [Bool.not_eq_true] at hset
        rw [if_pos (by simp [hset])] at he2
        rw [List.append_eq_nil] at he2
        obtain ⟨hu, hv⟩ := he2
        have hoim : onlyInManifest m actual = [] := by
          by_cases hne : onlyInManifest m actual = []
          · exact hne
          · rw [if_pos (by simp [hne])] at hu
            exact absurd hu (List.cons_ne_nil _ _)
        have hoid : onlyInDirectory m actual = [] := by
          by_cases hne : onlyInDirectory m actual = []
          · exact hne
          · rw [if_pos (by simp [hne])] at hv
            exact absurd hv (List.cons_ne_nil _ _)
        rw [setEqStr_of_empty_diffs m actual hoim hoid] at hset
        simp at hset
    simp [ha, hsd, hviol]

/-- One provenance error line per violating manifest entry, counted by
file name. -/
lemma checkManifestContents_provenance_count (rel : String) (m : Manifest)
    (actual : List String) (n : String) :
    ((checkManifestContents rel m actual).errors).count (CheckError.incompleteProvenance n) =
      ((m.files.filter provenanceViolation).map (fun f => f.name)).count n := by
  rw [checkManifestContents_errors]
  rw [List.count_append, List.count_append]
  have h1 : (if rel != m.directory then [CheckError.directoryMismatch m.directory]
      else []).count (CheckError.incompleteProvenance n) = 0 := by
    rw [List.count_eq_zero]
    split_ifs <;> simp
  have h2 : (if !setEqStr (manifestNames m) actual then
        (if !(onlyInManifest m actual).isEmpty
          then [CheckError.unknownInManifest (onlyInManifest m actual)] else [])
        ++ (if !(onlyInDirectory m actual).isEmpty
          then [CheckError.missingFromManifest (onlyInDirectory m actual)] else [])
      else []).count (CheckError.incompleteProvenance n) = 0 := by
    rw [List.count_eq_zero]
    split_ifs <;> simp
  have h3 : ((m.files.filter provenanceViolation).map
      (fun f => CheckError.incompleteProvenance f.name)).count
        (CheckError.incompleteProvenance n) =
      ((m.files.filter provenanceViolation).map (fun f => f.name)).count n := by
    rw [show (fun f : ManifestFile => CheckError.incompleteProvenance f.name) =
      (CheckError.incompleteProvenance ∘ (fun f : ManifestFile => f.name)) from rfl]
    rw [← List.map_map]
    exact List.count_map_of_injective _ _ (fun a b hab => by injection hab) n
  rw [h1, h2, h3]
  omega

/-- C6: when the manifest parses, validation is non-short-circuiting: the
directory-identity check, both file-set difference checks and the
url-xor-script check of every entry are all reflected in the error list
simultaneously — each holds its biconditional regardless of the others —
the provenance violations are recorded individually by file name (the
error count for a name equals the number of violating entries with that
name, so two violating entries yield two error lines), and the result is
valid exactly when no check recorded an error. -/
theorem check_data_directory_full_diagnostics (d : CheckDirState) (m : Manifest)
    (h1 : d.inRepo = true) (h2 : d.dirExists = true) (h3 : d.isDir = true)
    (h4 : d.manifest = .loaded m) (h5 : actualFiles d.entries ≠ []) :
    ((check_data_directory d).valid = true ↔ (check_data_directory d).errors = [])
    ∧ (CheckError.directoryMismatch m.directory ∈ (check_data_directory d).errors ↔
        d.directory_relative ≠ m.directory)
    ∧ (CheckError.unknownInManifest (onlyInManifest m (actualFiles d.entries)) ∈
        (check_data_directory d).errors ↔ onlyInManifest m (actualFiles d.entries) ≠ [])
    ∧ (CheckError.missingFromManifest (onlyInDirectory m (actualFiles d.entries)) ∈
        (check_data_directory d).errors ↔ onlyInDirectory m (actualFiles d.entries) ≠ [])
    ∧ (∀ n : String,
        ((check_data_directory d).errors).count (CheckError.incompleteProvenance n) =
          ((m.files.filter provenanceViolation).map (fun f => f.name)).count n) := by
  rw [check_data_directory_loaded d m h1 h2 h3 h4 h5]
  refine ⟨checkManifestContents_valid_iff _ _ _, ?_, ?_, ?_,
    fun n => checkManifestContents_provenance_count _ _ _ n⟩
  · rw [mem_checkManifestContents_errors]
    simp
  · rw [mem_checkManifestContents_errors]
    simp
  · rw [mem_checkManifestContents_errors]
    simp

/-- Witness for C6: a directory with files f1 and f2 and a manifest whose
two entries both violate the url-xor-script invariant. -/
theorem check_data_directory_full_diagnostics_witness :
    ((check_data_directory ⟨true, true, true, [⟨"f1", false⟩, ⟨"f2", false⟩], "data/x",
        .loaded ⟨"data/x", [⟨"f1", none, none, none⟩,
          ⟨"f2", some "u", some "s", none⟩]⟩⟩).valid = true ↔
      (check_data_directory ⟨true, true, true, [⟨"f1", false⟩, ⟨"f2", false⟩], "data/x",
        .loaded ⟨"data/x", [⟨"f1", none, none, none⟩,
          ⟨"f2", some "u", some "s", none⟩]⟩⟩).errors = []) :=
  (check_data_directory_full_diagnostics _ _ rfl rfl rfl rfl
    (by
      rw [show actualFiles [(⟨"f1", false⟩ : DirEntry), ⟨"f2", false⟩] = ["f1", "f2"]
        from rfl]
      exact List.cons_ne_nil _ _)).1

lemma populate_manifest_not_in_repo (d : PopDirState) (h : d.inRepo = false) :
    populate_manifest d = ⟨.error .notInRepo, []⟩ := by
  simp [populate_manifest, h]

lemma populate_manifest_yaml_error (d : PopDirState) (h1 : d.inRepo = true)
    (h2 : d.manifest = .yamlError) :
    populate_manifest d = ⟨.error .yamlError, []⟩ := by
  simp [populate_manifest, h1, h2]

lemma populate_manifest_validation_error (d : PopDirState) (h1 : d.inRepo = true)
    (h2 : d.manifest = .validationError) :
    populate_manifest d = ⟨.error .validationError, []⟩ := by
  simp [populate_manifest, h1, h2]

lemma populate_manifest_absent_empty (d : PopDirState) (h1 : d.inRepo = true)
    (h2 : d.manifest = .absent) (h3 : candidateFiles d.entries = []) :
    populate_manifest d = ⟨.ok (.empty, []), []⟩ := by
  simp [populate_manifest, h1, h2, h3]

lemma populate_manifest_absent_nonempty (d : PopDirState) (h1 : d.inRepo = true)
    (h2 : d.manifest = .absent) (h3 : candidateFiles d.entries ≠ []) :
    populate_manifest d =
      ⟨.ok (.created, candidateFiles d.entries),
        [⟨d.directory_relative,
          (candidateFiles d.entries).map (fun n => ⟨n, none, none, none⟩)⟩]⟩ := by
  have hne : (candidateFiles d.entries).isEmpty = false := by
    cases hev : candidateFiles d.entries with
    | nil => exact absurd hev h3
    | cons a l => rfl
  simp [populate_manifest, h1, h2, hne]

lemma populate_manifest_loaded (d : PopDirState) (dir : String)
    (mfiles : List ManifestFile) (h1 : d.inRepo = true)
    (h2 : d.manifest = .loaded ⟨dir, mfiles⟩) :
    populate_manifest d =
      ⟨.ok (.updated, (candidateFiles d.entries).filter
          (fun f => !decide (f ∈ mfiles.map (fun g => g.name)))),
        [⟨dir, mfiles ++ ((candidateFiles d.entries).filter
          (fun f => !decide (f ∈ mfiles.map (fun g => g.name)))).map
            (fun n => ⟨n, none, none, none⟩)⟩]⟩ := by
  simp [populate_manifest, h1, h2]

/-- Filtering a list down to elements missing from a superset of itself
gives the empty list. -/
lemma filter_not_mem_of_subset (l L : List String) (h : ∀ x ∈ l, x ∈ L) :
    l.filter (fun f => !decide (f ∈ L)) = [] := by
  rw [List.filter_eq_nil_iff]
  intro a ha
  simp [h a ha]

/-- C7 (amended): whenever the first `populate_manifest` call returned a
manifest-writing status (`created` or `updated`), a second call on the
unchanged directory returns `updated` with an empty added-file list and
rewrites the identical manifest, leaving the entry set unchanged.  (The
unamended claim fails on an empty directory with no manifest, where both
calls return `empty`, see the counterexample.) -/
theorem populate_manifest_idempotent (d : PopDirState) (st : PopStatus) (fs : List String)
    (h : (populate_manifest d).result = .ok (st, fs)) (hst : st ≠ .empty) :
    (populate_manifest (afterPopulate d)).result = .ok (.updated, [])
    ∧ (populate_manifest (afterPopulate d)).writes = (populate_manifest d).writes := by
  cases hrepo : d.inRepo with
  | false =>
    rw [populate_manifest_not_in_repo d hrepo] at h
    exact absurd h (by simp)
  | true =>
    cases hm : d.manifest with
    | yamlError =>
      rw [populate_manifest_yaml_error d hrepo hm] at h
      exact absurd h (by simp)
    | validationError =>
      rw [populate_manifest_validation_error d hrepo hm] at h
      exact absurd h (by simp)
    | absent =>
      cases hfe : candidateFiles d.entries with
      | nil =>
        rw [populate_manifest_absent_empty d hrepo hm hfe] at h
        simp only [Except.ok.injEq, Prod.mk.injEq] at h
        exact absurd h.1.symm hst
      | cons a l =>
        have h3 : candidateFiles d.entries ≠ [] := by
          rw [hfe]
          exact List.cons_ne_nil _ _
        have hpop := populate_manifest_absent_nonempty d hrepo hm h3
        have hrepo2 : (afterPopulate d).inRepo = true := by
          simp [afterPopulate, hpop, hrepo]
        have hm2 : (afterPopulate d).manifest = .loaded
            ⟨d.directory_relative,
              (candidateFiles d.entries).map (fun n => ⟨n, none, none, none⟩)⟩ := by
          simp [afterPopulate, hpop]
        have hent : (afterPopulate d).entries = d.entries := by
          simp [afterPopulate, hpop]
        have hpop2 := populate_manifest_loaded (afterPopulate d) d.directory_relative
          ((candidateFiles d.entries).map (fun n => ⟨n, none, none, none⟩)) hrepo2 hm2
        rw [hent] at hpop2
        have hnames : ((candidateFiles d.entries).map
            (fun n => (⟨n, none, none, none⟩ : ManifestFile))).map (fun g => g.name) =
            candidateFiles d.entries := by
          rw [List.map_map]
          rw [show ((fun g : ManifestFile => g.name) ∘
            fun n : String => (⟨n, none, none, none⟩ : ManifestFile)) = id from rfl]
          exact List.map_id _
        rw [hnames] at hpop2
        rw [filter_not_mem_of_subset _ _ (fun x hx => hx)] at hpop2
        rw [hpop2, hpop]
        constructor
        · rfl
        · simp
    | loaded m =>
      obtain ⟨dir0, mfiles0⟩ := m
      have hpop := populate_manifest_loaded d dir0 mfiles0 hrepo hm
      set nf := (candidateFiles d.entries).filter
        (fun f => !decide (f ∈ mfiles0.map (fun g => g.name))) with hnf
      have hrepo2 : (afterPopulate d).inRepo = true := by
        simp [afterPopulate, hpop, hrepo]
      have hm2 : (afterPopulate d).manifest = .loaded
          ⟨dir0, mfiles0 ++ nf.map (fun n => ⟨n, none, none, none⟩)⟩ := by
        simp [afterPopulate, hpop]
      have hent : (afterPopulate d).entries = d.entries := by
        simp [afterPopulate, hpop]
      have hpop2 := populate_manifest_loaded (afterPopulate d) dir0
        (mfiles0 ++ nf.map (fun n => ⟨n, none, none, none⟩)) hrepo2 hm2
      rw [hent] at hpop2
      have hnames2 : (mfiles0 ++ nf.map
          (fun n => (⟨n, none, none, none⟩ : ManifestFile))).map (fun g => g.name) =
          mfiles0.map (fun g => g.name) ++ nf := by
        rw [List.map_append, List.map_map]
        rw [show ((fun g : ManifestFile => g.name) ∘
          fun n : String => (⟨n, none, none, none⟩ : ManifestFile)) = id from rfl]
        rw [List.map_id]
      rw [hnames2] at hpop2
      have hsub : ∀ x ∈ candidateFiles d.entries,
          x ∈ mfiles0.map (fun g => g.name) ++ nf := by
        intro x hx
        rw [List.mem_append]
        by_cases hmem : x ∈ mfiles0.map (fun g => g.name)
        · exact Or.inl hmem
        · right
          rw [hnf, List.mem_filter]
          exact ⟨hx, by simp [hmem]⟩
      rw [filter_not_mem_of_subset _ _ hsub] at hpop2
      rw [hpop2, hpop]
      constructor
      · rfl
      · simp

/-- Witness for C7 (amended): a directory with one file and no manifest is
populated (`created`), and a second call returns `updated` with nothing
added and the identical write. -/
theorem populate_manifest_idempotent_witness :
    (populate_manifest (afterPopulate ⟨true, [⟨"a.csv", false⟩], "data/x", .absent⟩)).result =
        Except.ok (PopStatus.updated, ([] : List String))
    ∧ (populate_manifest (afterPopulate ⟨true, [⟨"a.csv", false⟩], "data/x", .absent⟩)).writes =
        (populate_manifest ⟨true, [⟨"a.csv", false⟩], "data/x", .absent⟩).writes :=
  populate_manifest_idempotent ⟨true, [⟨"a.csv", false⟩], "data/x", .absent⟩
    .created ["a.csv"] rfl (by decide)

/-- C7 (counterexample to the claim as stated): on an empty directory with
no manifest, the second of two `populate_manifest` calls returns `empty`,
not `updated`. -/
theorem populate_manifest_twice_empty_dir :
    (populate_manifest (afterPopulate ⟨true, [], "data/x", .absent⟩)).result =
      Except.ok (PopStatus.empty, ([] : List String))
    ∧ PopStatus.empty ≠ PopStatus.updated :=
  ⟨rfl, by decide⟩

/-- C8: populating a non-empty directory that has no manifest returns
`created` with the candidate file list, and loading the written
MANIFEST.yaml back yields a Manifest whose entry names are exactly the
non-hidden, non-manifest file names of the directory, with the url,
script and md5 fields of every entry unset. -/
theorem populate_manifest_roundtrip (d : PopDirState)
    (h1 : d.inRepo = true) (h2 : d.manifest = .absent)
    (h3 : candidateFiles d.entries ≠ []) :
    (populate_manifest d).result = .ok (.created, candidateFiles d.entries)
    ∧ ∃ m, (afterPopulate d).manifest = .loaded m
        ∧ m.files.map (fun f => f.name) = candidateFiles d.entries
        ∧ ∀ f ∈ m.files, f.url = none ∧ f.script = none ∧ f.md5 = none := by
  have hpop := populate_manifest_absent_nonempty d h1 h2 h3
  refine ⟨by rw [hpop], ⟨d.directory_relative,
    (candidateFiles d.entries).map (fun n => ⟨n, none, none, none⟩)⟩, ?_, ?_, ?_⟩
  · simp [afterPopulate, hpop]
  · rw [List.map_map]
    rw [show ((fun f : ManifestFile => f.name) ∘
      fun n : String => (⟨n, none, none, none⟩ : ManifestFile)) = id from rfl]
    exact List.map_id _
  · intro f hf
    rw [List.mem_map] at hf
    obtain ⟨n, _, rfl⟩ := hf
    exact ⟨rfl, rfl, rfl⟩

/-- Witness for C8: a directory holding b.csv and a.csv (plus a hidden
file and a subdirectory, which are excluded) round-trips into a manifest
with exactly those names and unset provenance. -/
theorem populate_manifest_roundtrip_witness :
    (populate_manifest ⟨true, [⟨"b.csv", false⟩, ⟨".hidden", false⟩, ⟨"sub", true⟩,
        ⟨"a.csv", false⟩], "data/x", .absent⟩).result =
      Except.ok (PopStatus.created, ["b.csv", "a.csv"]) :=
  (populate_manifest_roundtrip ⟨true, [⟨"b.csv", false⟩, ⟨".hidden", false⟩, ⟨"sub", true⟩,
      ⟨"a.csv", false⟩], "data/x", .absent⟩ rfl rfl
    (by
      rw [show candidateFiles [⟨"b.csv", false⟩, ⟨".hidden", false⟩, ⟨"sub", true⟩,
        (⟨"a.csv", false⟩ : DirEntry)] = ["b.csv", "a.csv"] from rfl]
      exact List.cons_ne_nil _ _)).1

/-- C10: whenever `populate_manifest` raises — the directory escapes the
repository root, or the existing manifest fails YAML parsing or schema
validation — no write to MANIFEST.yaml is performed: the containment
check and the manifest load both precede every write. -/
theorem populate_manifest_no_write_on_error (d : PopDirState) (e : PopError)
    (h : (populate_manifest d).result = .error e) :
    (populate_manifest d).writes = [] := by
  cases hrepo : d.inRepo with
  | false => rw [populate_manifest_not_in_repo d hrepo]
  | true =>
    cases hm : d.manifest with
    | absent =>
      cases hfe : candidateFiles d.entries with
      | nil => rw [populate_manifest_absent_empty d hrepo hm hfe]
      | cons a l =>
        have h3 : candidateFiles d.entries ≠ [] := by
          rw [hfe]
          exact List.cons_ne_nil a l
        rw [populate_manifest_absent_nonempty d hrepo hm h3] at h
        exact absurd h (by simp)
    | yamlError => rw [populate_manifest_yaml_error d hrepo hm]
    | validationError => rw [populate_manifest_validation_error d hrepo hm]
    | loaded m =>
      obtain ⟨dir0, mfiles0⟩ := m
      rw [populate_manifest_loaded d dir0 mfiles0 hrepo hm] at h
      exact absurd h (by simp)

/-- Witness for C10: a directory whose manifest file is not valid YAML
raises without writing anything. -/
theorem populate_manifest_no_write_on_error_witness :
    (populate_manifest ⟨true, [⟨"a.csv", false⟩], "data/x", .yamlError⟩).writes = [] :=
  populate_manifest_no_write_on_error ⟨true, [⟨"a.csv", false⟩], "data/x", .yamlError⟩
    .yamlError rfl

/- ------------------------------------------------------------------ -/
/- Recursive endpoint listing (globus.py, 240-306)                    -/
/- ------------------------------------------------------------------ -/

/-- A node of the finite directory tree visible on an endpoint: a file or
a directory with its children.  `operation_ls` on a directory is modelled
as returning the listing of its children. -/
inductive FsEntry where
  | file (name : String) (mtime : Int)
  | dir (name : String) (mtime : Int) (children : List FsEntry)
  deriving Repr

mutual

/-- Number of nodes in the subtree rooted at an entry. -/
def FsEntry.size : FsEntry → Nat
  | .file _ _ => 1
  | .dir _ _ cs => 1 + sizeEntries cs

/-- Number of nodes in a forest. -/
def sizeEntries : List FsEntry → Nat
  | [] => 0
  | e :: es => FsEntry.size e + sizeEntries es

end

/-- The name of an entry as reported by the listing. -/
def FsEntry.entryName : FsEntry → String
  | .file n _ => n
  | .dir n _ _ => n

/-- The type string of an entry as reported by the listing. -/
def FsEntry.ftypeStr : FsEntry → String
  | .file _ _ => "file"
  | .dir _ _ _ => "dir"

/-- The last-modified value of an entry as reported by the listing. -/
def FsEntry.mtimeOf : FsEntry → Int
  | .file _ t => t
  | .dir _ t _ => t

/-- The children of an entry (empty for a file). -/
def FsEntry.childrenOf : FsEntry → List FsEntry
  | .file _ _ => []
  | .dir _ _ cs => cs

/-- One yielded item of the recursive listing: the relative-path-prefixed
name, the type string and the last-modified value. -/
structure LsItem where
  name : String
  ftype : String
  last_modified : Int
  deriving DecidableEq, Repr

/-- One work-queue entry of `_recursive_ls_helper`: the listing contents
of a directory, its relative path, and its depth. -/
structure LsQueueItem where
  entries : List FsEntry
  rel_path : String
  depth : Nat

/-- One iteration of the `while queue` loop of `_recursive_ls_helper`
(globus.py lines 253-279): list the popped directory, enqueue its child
directories for further expansion only when `depth < max_depth`, and
yield every listed entry with its relative path prefixed.  The first
component is the yielded items, the second the newly enqueued work, in
extension order. -/
def lsStep (max_depth : Nat) (item : LsQueueItem) : List LsItem × List LsQueueItem :=
  let pathPfx := if item.rel_path == "" then "" else item.rel_path ++ "/"
  (item.entries.map (fun e => ⟨pathPfx ++ e.entryName, e.ftypeStr, e.mtimeOf⟩),
    if item.depth < max_depth then
      (item.entries.filter (fun e => e.ftypeStr == "dir")).map
        (fun e => ⟨e.childrenOf, pathPfx ++ e.entryName, item.depth + 1⟩)
    else [])

/-- Termination measure of the work queue: one unit per queued listing
plus the size of each queued forest. -/
def queueMeasure (q : List LsQueueItem) : Nat :=
  (q.map (fun it => 1 + sizeEntries it.entries)).sum

lemma queueMeasure_nil : queueMeasure [] = 0 := rfl

lemma queueMeasure_cons (it : LsQueueItem) (q : List LsQueueItem) :
    queueMeasure (it :: q) = 1 + sizeEntries it.entries + queueMeasure q := by
  simp [queueMeasure]

lemma queueMeasure_append (q1 q2 : List LsQueueItem) :
    queueMeasure (q1 ++ q2) = queueMeasure q1 + queueMeasure q2 := by
  simp [queueMeasure]

lemma queueMeasure_reverse (q : List LsQueueItem) :
    queueMeasure q.reverse = queueMeasure q := by
  rw [queueMeasure, queueMeasure, List.map_reverse, List.sum_reverse]

/-- The work enqueued for the child directories of a listing weighs no
more than the forest itself. -/
lemma sum_dir_children_le (l : List FsEntry) :
    ((l.filter (fun e => e.ftypeStr == "dir")).map
      (fun e => 1 + sizeEntries e.childrenOf)).sum ≤ sizeEntries l := by
  induction l with
  | nil => simp [sizeEntries]
  | cons e es ih =>
    cases e with
    | file n t =>
      rw [List.filter_cons]
      rw [if_neg (by simp [FsEntry.ftypeStr])]
      rw [show sizeEntries (FsEntry.file n t :: es) = 1 + sizeEntries es from by
        rw [sizeEntries, FsEntry.size]]
      omega
    | dir n t cs =>
      rw [List.filter_cons]
      rw [if_pos (by simp [FsEntry.ftypeStr])]
      rw [List.map_cons, List.sum_cons]
      rw [show sizeEntries (FsEntry.dir n t cs :: es) =
        1 + sizeEntries cs + sizeEntries es from by
        rw [sizeEntries, FsEntry.size]]
      rw [show (FsEntry.dir n t cs).childrenOf = cs from rfl]
      omega

/-- The measure of the work pushed by one step is at most the size of the
popped forest. -/
lemma lsStep_pushed_measure (max_depth : Nat) (item : LsQueueItem) :
    queueMeasure (lsStep max_depth item).2 ≤ sizeEntries item.entries := by
  rw [lsStep]
  by_cases hd : item.depth < max_depth
  · rw [if_pos hd]
    rw [queueMeasure, List.map_map]
    exact le_trans (le_of_eq (by rfl)) (sum_dir_children_le item.entries)
  · rw [if_neg hd]
    rw [queueMeasure_nil]
    exact Nat.zero_le _

/-- The `while queue` loop of `_recursive_ls_helper`, with the deque
modelled so that the head of the list is the pop end: `queue.pop()` takes
the head, and `queue.extend(new)` prepends `new.reverse` (the last
extended element becomes the next popped).  Yields of one iteration
precede those of later iterations, as in the generator. -/
def recursive_ls_helper (max_depth : Nat) : List LsQueueItem → List LsItem
  | [] => []
  | item :: rest =>
    (lsStep max_depth item).1 ++
      recursive_ls_helper max_depth ((lsStep max_depth item).2.reverse ++ rest)
  termination_by q => queueMeasure q
  decreasing_by
    rw [queueMeasure_append, queueMeasure_reverse, queueMeasure_cons]
    have h := lsStep_pushed_measure max_depth item
    omega

/-- `recursive_ls` (globus.py lines 282-306): a fresh queue is created and
seeded with the root on every invocation; `max_depth` defaults to 3.  The
rate-limiting sleep and the top-level listing parameters do not affect
which items are produced and are omitted. -/
def recursive_ls (fs : List FsEntry) (max_depth : Nat := 3) : List LsItem :=
  recursive_ls_helper max_depth [⟨fs, "", 0⟩]

lemma recursive_ls_helper_nil (max_depth : Nat) :
    recursive_ls_helper max_depth [] = [] := by
  rw [recursive_ls_helper]

lemma recursive_ls_helper_cons (max_depth : Nat) (item : LsQueueItem)
    (rest : List LsQueueItem) :
    recursive_ls_helper max_depth (item :: rest) =
      (lsStep max_depth item).1 ++
        recursive_ls_helper max_depth ((lsStep max_depth item).2.reverse ++ rest) := by
  rw [recursive_ls_helper]

/-- A forest contributes its own length plus the sizes of the subtrees
below its directories, which is exactly its size. -/
lemma length_add_dir_children_le (l : List FsEntry) :
    l.length + ((l.filter (fun e => e.ftypeStr == "dir")).map
      (fun e => sizeEntries e.childrenOf)).sum ≤ sizeEntries l := by
  induction l with
  | nil => simp [sizeEntries]
  | cons e es ih =>
    cases e with
    | file n t =>
      rw [List.filter_cons]
      rw [if_neg (by simp [FsEntry.ftypeStr])]
      rw [List.length_cons]
      rw [show sizeEntries (FsEntry.file n t :: es) = 1 + sizeEntries es from by
        rw [sizeEntries, FsEntry.size]]
      omega
    | dir n t cs =>
      rw [List.filter_cons]
      rw [if_pos (by simp [FsEntry.ftypeStr])]
      rw [List.map_cons, List.sum_cons, List.length_cons]
      rw [show sizeEntries (FsEntry.dir n t cs :: es) =
        1 + sizeEntries cs + sizeEntries es from by
        rw [sizeEntries, FsEntry.size]]
      rw [show (FsEntry.dir n t cs).childrenOf = cs from rfl]
      omega

/-- The yield count of the listing loop is bounded by the total size of
the queued forests. -/
lemma recursive_ls_helper_length (max_depth : Nat) : ∀ (n : Nat) (q : List LsQueueItem),
    queueMeasure q ≤ n →
    (recursive_ls_helper max_depth q).length ≤
      (q.map (fun it => sizeEntries it.entries)).sum := by
  intro n
  induction n with
  | zero =>
    intro q hq
    cases q with
    | nil => simp [recursive_ls_helper_nil]
    | cons it rest =>
      rw [queueMeasure_cons] at hq
      omega
  | succ n ih =>
    intro q hq
    cases q with
    | nil => simp [recursive_ls_helper_nil]
    | cons item rest =>
      rw [recursive_ls_helper_cons, List.length_append]
      have hy : (lsStep max_depth item).1.length = item.entries.length := by
        simp [lsStep]
      have hmq : queueMeasure ((lsStep max_depth item).2.reverse ++ rest) ≤ n := by
        rw [queueMeasure_append, queueMeasure_reverse]
        rw [queueMeasure_cons] at hq
        have hps := lsStep_pushed_measure max_depth item
        omega
      have hrec := ih _ hmq
      have hsplit : (((lsStep max_depth item).2.reverse ++ rest).map
          (fun it => sizeEntries it.entries)).sum =
          (((lsStep max_depth item).2).map (fun it => sizeEntries it.entries)).sum +
            (rest.map (fun it => sizeEntries it.entries)).sum := by
        rw [List.map_append, List.sum_append, List.map_reverse, List.sum_reverse]
      have hpushed : (((lsStep max_depth item).2).map
          (fun it => sizeEntries it.entries)).sum ≤
          ((item.entries.filter (fun e => e.ftypeStr == "dir")).map
            (fun e => sizeEntries e.childrenOf)).sum := by
        rw [lsStep]
        by_cases hd : item.depth < max_depth
        · rw [if_pos hd, List.map_map]
          exact le_of_eq rfl
        · rw [if_neg hd]
          simp
      have hkey := length_add_dir_children_le item.entries
      rw [List.map_cons, List.sum_cons]
      omega

mutual

/-- Truncation of a tree at a depth: at level 0 the children of a
directory are dropped, otherwise they are truncated one level lower.
Names, types and timestamps are untouched. -/
def FsEntry.prune : Nat → FsEntry → FsEntry
  | _, .file n t => .file n t
  | 0, .dir n t _ => .dir n t []
  | k + 1, .dir n t cs => .dir n t (pruneEntries k cs)

/-- Truncation of a forest at a depth. -/
def pruneEntries : Nat → List FsEntry → List FsEntry
  | _, [] => []
  | k, e :: es => FsEntry.prune k e :: pruneEntries k es

end

lemma prune_entryName (k : Nat) (e : FsEntry) :
    (FsEntry.prune k e).entryName = e.entryName := by
  cases e with
  | file n t => rw [FsEntry.prune]
  | dir n t cs =>
    cases k with
    | zero => rw [FsEntry.prune]; simp [FsEntry.entryName]
    | succ k => rw [FsEntry.prune]; simp [FsEntry.entryName]

lemma prune_ftypeStr (k : Nat) (e : FsEntry) :
    (FsEntry.prune k e).ftypeStr = e.ftypeStr := by
  cases e with
  | file n t => rw [FsEntry.prune]
  | dir n t cs =>
    cases k with
    | zero => rw [FsEntry.prune]; simp [FsEntry.ftypeStr]
    | succ k => rw [FsEntry.prune]; simp [FsEntry.ftypeStr]

lemma prune_mtimeOf (k : Nat) (e : FsEntry) :
    (FsEntry.prune k e).mtimeOf = e.mtimeOf := by
  cases e with
  | file n t => rw [FsEntry.prune]
  | dir n t cs =>
    cases k with
    | zero => rw [FsEntry.prune]; simp [FsEntry.mtimeOf]
    | succ k => rw [FsEntry.prune]; simp [FsEntry.mtimeOf]

lemma childrenOf_prune_succ (k : Nat) (e : FsEntry) (h : e.ftypeStr = "dir") :
    (FsEntry.prune (k + 1) e).childrenOf = pruneEntries k e.childrenOf := by
  cases e with
  | file n t => simp [FsEntry.ftypeStr] at h
  | dir n t cs => rw [FsEntry.prune, FsEntry.childrenOf, FsEntry.childrenOf]

/-- Truncation does not change the one-level listing a node produces. -/
lemma map_toItem_prune (pfx : String) (k : Nat) (l : List FsEntry) :
    (pruneEntries k l).map
        (fun e => (⟨pfx ++ e.entryName, e.ftypeStr, e.mtimeOf⟩ : LsItem)) =
      l.map (fun e => ⟨pfx ++ e.entryName, e.ftypeStr, e.mtimeOf⟩) := by
  induction l with
  | nil => rw [pruneEntries]
  | cons e es ih =>
    rw [pruneEntries, List.map_cons, List.map_cons, ih]
    rw [prune_entryName, prune_ftypeStr, prune_mtimeOf]

/-- Truncation commutes with selecting the directory entries. -/
lemma filter_dir_prune (k : Nat) (l : List FsEntry) :
    (pruneEntries k l).filter (fun e => e.ftypeStr == "dir") =
      pruneEntries k (l.filter (fun e => e.ftypeStr == "dir")) := by
  induction l with
  | nil => rw [pruneEntries, List.filter_nil, pruneEntries]
  | cons e es ih =>
    rw [pruneEntries, List.filter_cons, List.filter_cons]
    by_cases hd : (e.ftypeStr == "dir") = true
    · rw [if_pos (by rw [prune_ftypeStr]; exact hd), if_pos hd, pruneEntries, ih]
    · rw [if_neg (by rw [prune_ftypeStr]; exact hd), if_neg hd, ih]

/-- A queue item truncated to the levels the loop can still explore from
its depth. -/
def pruneQitem (max_depth : Nat) (it : LsQueueItem) : LsQueueItem :=
  ⟨pruneEntries (max_depth - it.depth) it.entries, it.rel_path, it.depth⟩

/-- Work pushed for the directories of a truncated listing is the
truncation of the work pushed for the original listing. -/
lemma pushed_prune_aux (max_depth depth : Nat) (hd : depth < max_depth) (pfx : String)
    (fl : List FsEntry) (hfl : ∀ e ∈ fl, e.ftypeStr = "dir") :
    (pruneEntries (max_depth - depth) fl).map
        (fun e => (⟨e.childrenOf, pfx ++ e.entryName, depth + 1⟩ : LsQueueItem)) =
      (fl.map (fun e => (⟨e.childrenOf, pfx ++ e.entryName, depth + 1⟩ : LsQueueItem))).map
        (pruneQitem max_depth) := by
  induction fl with
  | nil => simp [pruneEntries]
  | cons e es ih =>
    rw [pruneEntries, List.map_cons, List.map_cons, List.map_cons]
    rw [ih (fun x hx => hfl x (List.mem_cons_of_mem e hx))]
    obtain ⟨k, hk⟩ : ∃ k, max_depth - depth = k + 1 := ⟨max_depth - depth - 1, by omega⟩
    rw [hk]
    rw [prune_entryName, childrenOf_prune_succ k e (hfl e (List.mem_cons_self e es))]
    rw [pruneQitem]
    rw [show max_depth - (depth + 1) = k from by omega]

/-- One loop iteration yields the same items on a truncated listing, and
pushes the truncation of the work it pushes on the original listing. -/
lemma lsStep_prune (max_depth : Nat) (item : LsQueueItem) :
    (lsStep max_depth (pruneQitem max_depth item)).1 = (lsStep max_depth item).1
    ∧ (lsStep max_depth (pruneQitem max_depth item)).2 =
        ((lsStep max_depth item).2).map (pruneQitem max_depth) := by
  obtain ⟨entries, rel, depth⟩ := item
  constructor
  · simp only [lsStep, pruneQitem]
    exact map_toItem_prune _ _ _
  · simp only [lsStep, pruneQitem]
    by_cases hd : depth < max_depth
    · rw [if_pos hd, if_pos hd]
      rw [filter_dir_prune]
      exact pushed_prune_aux max_depth depth hd _ _ (fun e he => by
        have hdir := (List.mem_filter.mp he).2
        rwa [beq_iff_eq] at hdir)
    · rw [if_neg hd, if_neg hd]
      rfl

/-- The listing loop cannot distinguish a queue from its truncation: work
below the depth bound is never read. -/
lemma recursive_ls_helper_prune (max_depth : Nat) : ∀ (n : Nat) (q : List LsQueueItem),
    queueMeasure q ≤ n →
    recursive_ls_helper max_depth (q.map (pruneQitem max_depth)) =
      recursive_ls_helper max_depth q := by
  intro n
  induction n with
  | zero =>
    intro q hq
    cases q with
    | nil => rfl
    | cons it rest =>
      rw [queueMeasure_cons] at hq
      omega
  | succ n ih =>
    intro q hq
    cases q with
    | nil => rfl
    | cons item rest =>
      rw [List.map_cons, recursive_ls_helper_cons, recursive_ls_helper_cons]
      obtain ⟨hy, hp⟩ := lsStep_prune max_depth item
      rw [hy, hp]
      congr 1
      rw [← List.map_reverse, ← List.map_append]
      apply ih
      rw [queueMeasure_append, queueMeasure_reverse]
      rw [queueMeasure_cons] at hq
      have hps := lsStep_pushed_measure max_depth item
      omega

/-- C9: for every finite directory tree and every max_depth the recursive
listing terminates with finitely many entries, at most one per tree node;
entries strictly below the expansion bound never influence the output
(child directories are expanded only from parents with depth strictly
below max_depth, so truncating the tree there changes nothing); the
default max_depth is 3; and every invocation runs on a fresh queue seeded
with the root at depth 0. -/
theorem recursive_ls_finite_and_bounded (fs : List FsEntry) (max_depth : Nat) :
    (recursive_ls fs max_depth).length ≤ sizeEntries fs
    ∧ recursive_ls fs max_depth = recursive_ls (pruneEntries max_depth fs) max_depth
    ∧ recursive_ls fs = recursive_ls fs 3
    ∧ recursive_ls fs max_depth = recursive_ls_helper max_depth [⟨fs, "", 0⟩] := by
  refine ⟨?_, ?_, rfl, rfl⟩
  · have h := recursive_ls_helper_length max_depth (queueMeasure [⟨fs, "", 0⟩])
      [⟨fs, "", 0⟩] le_rfl
    rw [recursive_ls]
    simpa using h
  · have h := recursive_ls_helper_prune max_depth (queueMeasure [⟨fs, "", 0⟩])
      [⟨fs, "", 0⟩] le_rfl
    rw [recursive_ls, recursive_ls, ← h]
    congr 1

end VeDataScienceTool
